import Mathlib

/-!
Verification development for the swiftlink DNS-and-proxy gateway core.

Shallow embedding of the components referenced by the specification:
 - the per-nameserver lookup deadline computation and the nameserver-group
   racing loop (src/swiftlink-dns/src/client.rs),
 - the DNS server front end EDNS handling (src/swiftlink-dns/src/server.rs),
 - the SOCKS5 handshake authentication and command dispatch
   (src/swiftlink/src/inbound/socks/tcp.rs),
 - the fake-IP memory store and allocator
   (src/swiftlink-infra/src/fakedns/memory.rs, mod.rs),
 - the wildcard domain trie (src/swiftlink-infra/src/trie/domain_trie.rs).

Machine integers are modelled as Nat with explicit reduction mod 2^w where
overflow can occur; fallible operations return Except or Option; the async
completion order of racing futures is an explicit list parameter.
-/

namespace Swiftlink

/-- `MAX_TTL` from src/swiftlink-dns/src/lib.rs: one day in seconds. -/
def MAX_TTL : Nat := 86400

namespace Client

/-- Rust `Iterator::min` over the TTLs of the answer records
(`res.answers().iter().map(|r| r.ttl()).min()` in `NameServer::lookup`,
src/swiftlink-dns/src/client.rs): `none` on an empty answer set, otherwise
the least TTL. -/
def minTtl : List Nat → Option Nat
  | [] => none
  | t :: ts =>
    match minTtl ts with
    | none => some t
    | some m => some (min t m)

/-- The deadline computed by `NameServer::lookup`
(src/swiftlink-dns/src/client.rs lines 550-557):
`Instant::now() + Duration::from_secs(min_ttl.unwrap_or(MAX_TTL))`.
`now` is the value of `Instant::now()` in seconds.  Note the source applies
`MAX_TTL` only as the default for an empty answer set; the minimum TTL of a
non-empty answer set is used without clamping. -/
def lookupValidUntil (now : Nat) (ttls : List Nat) : Nat :=
  now + (minTtl ttls).getD MAX_TTL

/-- Abstract answer record set of a `Lookup` (only emptiness matters for the
group loop). -/
structure Lookup where
  records : List Nat
deriving DecidableEq

/-- Result of one member `NameServer::lookup`: `Ok(lookup)` or a
`LookupError` (the error payload is irrelevant to the group loop). -/
inductive LookupResult where
  | ok (lk : Lookup)
  | err
deriving DecidableEq

/-- The guard of `NameServerGroup::lookup`:
`matches!(res, Ok(lookup) if !lookup.records().is_empty())`. -/
def isOkNonEmpty : LookupResult → Bool
  | .ok lk => !lk.records.isEmpty
  | .err => false

/-- `NameServerGroup::lookup` (src/swiftlink-dns/src/client.rs lines 239-264),
parametrised by the completion order of the racing member futures:
`order` lists the member results in the order `select_all` yields them.
The loop returns the first `Ok` result with a non-empty record set,
otherwise the result of the last future to complete.  `select_all` panics
when called on an empty vector of futures; that non-returning call is
modelled as `none`. -/
def groupLookup : List LookupResult → Option LookupResult
  | [] => none
  | r :: rest =>
    if isOkNonEmpty r then some r
    else if rest.isEmpty then some r
    else groupLookup rest

end Client

namespace Socks5

/-- src/swiftlink-transport socks5 method constants used by `check_auth`. -/
def SOCKS5_AUTH_METHOD_NONE : Nat := 0

def SOCKS5_AUTH_METHOD_PASSWORD : Nat := 2

def SOCKS5_AUTH_METHOD_NOT_ACCEPTABLE : Nat := 255

/-- `socks5_impl::check_auth` (src/swiftlink/src/inbound/socks/tcp.rs lines
236-275), reduced to the handshake method byte the server replies with.
The loop scans the client's offered methods in order: a `PASSWORD` method is
answered with `PASSWORD` (unconditionally); a `NONE` method is answered
with `NONE` only when no authenticator is configured, and skipped
otherwise; any other method is skipped.  When the scan finds nothing the
server replies `NO_ACCEPTABLE_METHODS` and errors out. -/
def checkAuthReply (methods : List Nat) (hasAuth : Bool) : Nat :=
  match methods with
  | [] => SOCKS5_AUTH_METHOD_NOT_ACCEPTABLE
  | m :: rest =>
    if m = SOCKS5_AUTH_METHOD_PASSWORD then SOCKS5_AUTH_METHOD_PASSWORD
    else if m = SOCKS5_AUTH_METHOD_NONE ∧ hasAuth = false then SOCKS5_AUTH_METHOD_NONE
    else checkAuthReply rest hasAuth

/-- `socks5_impl::check_auth_password` (src/swiftlink/src/inbound/socks/tcp.rs
lines 277-351), from the point where a `PasswdAuthRequest` has been read:
`unameOk` / `passwdOk` say whether the two fields are valid UTF-8 and
`verifyOk` is the authenticator's verdict.  The result is the status byte
written back (if any) and whether the function returns `Ok`.  When no
authenticator is configured the credentials are accepted without a status
reply. -/
def checkAuthPassword (hasAuth unameOk passwdOk verifyOk : Bool) : Option Nat × Bool :=
  if unameOk = false then (some 255, false)
  else if passwdOk = false then (some 255, false)
  else if hasAuth then
    if verifyOk then (some 0, true) else (some 255, false)
  else (none, true)

/-- A method byte the `check_auth` scan reacts to: `PASSWORD`, or `NONE`
when no authenticator is configured. -/
def relevantAuthMethod (hasAuth : Bool) (m : Nat) : Bool :=
  m == SOCKS5_AUTH_METHOD_PASSWORD ||
    (m == SOCKS5_AUTH_METHOD_NONE && !hasAuth)

/-- SOCKS5 request commands (src/swiftlink-transport socks5). -/
inductive Command where
  | tcpConnect
  | udpAssociate
  | tcpBind
deriving DecidableEq

/-- Outcome of the command dispatch in `socks5_impl::handle_client`
(src/swiftlink/src/inbound/socks/tcp.rs lines 204-233).  `udpRelayEntered`
is the behaviour the specification prescribes for `UDP_ASSOCIATE` (bind a
local UDP socket, reply with its address, enter the UDP relay);
`panicTodo` models the `todo` macro invocation that the source actually
executes there, which panics the connection task. -/
inductive CommandOutcome where
  | connectDispatched
  | udpRelayEntered
  | bindRejected
  | panicTodo
deriving DecidableEq

/-- The `match header.command` dispatch of `socks5_impl::handle_client`. -/
def handleCommand : Command → CommandOutcome
  | .tcpConnect => .connectDispatched
  | .udpAssociate => .panicTodo
  | .tcpBind => .bindRejected

end Socks5

namespace Server

/-- DNS response codes that `ServerHandle::handle_request` can set
(src/swiftlink-dns/src/server.rs). -/
inductive RCode where
  | noError
  | formErr
  | notImp
  | badVers
  | nxDomain
deriving DecidableEq

/-- The EDNS section of a request: its advertised max UDP payload and
version. -/
structure ReqEdns where
  maxPayload : Nat
  version : Nat
deriving DecidableEq

/-- The EDNS section the server builds for a response
(`resp_edns` in `handle_request`). -/
structure RespEdns where
  maxPayload : Nat
  version : Nat
  dnssecOk : Bool
deriving DecidableEq

/-- Message type of an incoming request. -/
inductive MsgType where
  | query
  | response
deriving DecidableEq

/-- Opcode of an incoming request (`Query` versus everything else). -/
inductive Opcode where
  | query
  | other
deriving DecidableEq

/-- The request fields `handle_request` inspects. -/
structure Request where
  msgType : MsgType
  opCode : Opcode
  edns : Option ReqEdns
  recursionDesired : Bool
deriving DecidableEq

/-- Outcome of the handler-chain search that `handle_request` forwards to
(`self.handler.search(req)`): either an answer record set, or a
`LookupError` carrying an NXDOMAIN flag and an optional SOA record set. -/
inductive SearchResult where
  | found (answers : List Nat)
  | failure (nxDomain : Bool) (soa : Option (List Nat))
deriving DecidableEq

/-- The response fields relevant to the EDNS claim: response code, attached
EDNS section, answer records. -/
structure Response where
  rcode : RCode
  edns : Option RespEdns
  answers : List Nat
deriving DecidableEq

/-- `send_forwarded_response` (src/swiftlink-dns/src/server.rs lines 243-290)
combined with the final message build: with recursion not desired the
answer set is empty; otherwise a lookup failure maps to NXDOMAIN (when the
error is NXDOMAIN) with the error's SOA records as the answer payload, and
a success carries its records. -/
def forwardResponse (req : Request) (search : SearchResult) : Response :=
  if req.recursionDesired = false then ⟨.noError, none, []⟩
  else
    match search with
    | .found answers => ⟨.noError, none, answers⟩
    | .failure nx soa => ⟨if nx then .nxDomain else .noError, none, soa.getD []⟩

/-- `ServerHandle::handle_request` (src/swiftlink-dns/src/server.rs lines
80-241) for a request with search outcome `search`:
a `Response`-typed message is answered with FormErr, a non-`Query` opcode
with NotImp; for an EDNS request the server builds
`resp_edns = (max(req.max_payload, 512), version 0, dnssec_ok = true)`,
replies BADVERS carrying that section when the request's EDNS version
exceeds 0, and otherwise hands `Some(resp_edns)` to `send_response` --
which, with the dnssec feature disabled, ignores its `_response_edns`
argument, so the normal-path response carries no EDNS section. -/
def handleRequest (req : Request) (search : SearchResult) : Response :=
  match req.msgType with
  | .response => ⟨.formErr, none, []⟩
  | .query =>
    match req.opCode with
    | .other => ⟨.notImp, none, []⟩
    | .query =>
      match req.edns with
      | some reqEdns =>
        let respEdns : RespEdns := ⟨Nat.max reqEdns.maxPayload 512, 0, true⟩
        if reqEdns.version > 0 then ⟨.badVers, some respEdns, []⟩
        else forwardResponse req search
      | none => forwardResponse req search

end Server

namespace FakeIP

/-- An `ipnet::Ipv4Net`: the (aligned) network address as a Nat below 2^32
and the prefix length. -/
structure Ipv4Net where
  network : Nat
  prefixLen : Nat
deriving DecidableEq

/-- An `ipnet::Ipv6Net`: the network address as a Nat below 2^128 and the
prefix length. -/
structure Ipv6Net where
  network : Nat
  prefixLen : Nat
deriving DecidableEq

/-- Broadcast address of an IPv4 net: the last address of the block. -/
def Ipv4Net.broadcast (n : Ipv4Net) : Nat :=
  n.network + 2 ^ (32 - n.prefixLen) - 1

/-- `ipnet::Ipv4Net::contains`: the address lies between the network and the
broadcast address. -/
def Ipv4Net.containsIp (n : Ipv4Net) (ip : Nat) : Bool :=
  decide (n.network ≤ ip ∧ ip ≤ n.broadcast)

/-- Last address of an IPv6 block. -/
def Ipv6Net.broadcast (n : Ipv6Net) : Nat :=
  n.network + 2 ^ (128 - n.prefixLen) - 1

/-- `ipnet::Ipv6Net::contains`. -/
def Ipv6Net.containsIp (n : Ipv6Net) (ip : Nat) : Bool :=
  decide (n.network ≤ ip ∧ ip ≤ n.broadcast)

/-- `gen_next_ipv4` (src/swiftlink-infra/src/fakedns/mod.rs lines 205-211):
`u32` arithmetic `network + 2 + offset`, reduced mod 2^32 (release-mode
wrapping semantics of the `u32` additions). -/
def genNextIpv4 (ipnet : Ipv4Net) (offset : Nat) : Nat :=
  (ipnet.network + 2 + offset) % 2 ^ 32

/-- `gen_next_ipv6` (src/swiftlink-infra/src/fakedns/mod.rs lines 213-219):
`u128` arithmetic `network + 2 + offset`, reduced mod 2^128. -/
def genNextIpv6 (ipnet6 : Ipv6Net) (offset : Nat) : Nat :=
  (ipnet6.network + 2 + offset) % 2 ^ 128

/-- Hosts are the store keys that do not parse as IP addresses
(`String::from_utf8` followed by a failed `parse::<IpAddr>()` in
`MemoryStore::get_fakeip`). -/
abbrev Host := String

/-- `std::net::IpAddr`: a v4 or v6 address value. -/
inductive IpAddr where
  | v4 (a : Nat)
  | v6 (a : Nat)
deriving DecidableEq

/-- `IpAddr::is_ipv6`. -/
def IpAddr.isIpv6 : IpAddr → Bool
  | .v4 _ => false
  | .v6 _ => true

/-- `bimap::BiMap::get_by_left` on an association list with pairwise
distinct left and right components. -/
def bimapGetByLeft (m : List (Host × Nat)) (h : Host) : Option Nat :=
  (m.find? fun p => p.1 == h).map (·.2)

/-- `bimap::BiMap::get_by_right`. -/
def bimapGetByRight (m : List (Host × Nat)) (ip : Nat) : Option Host :=
  (m.find? fun p => p.2 == ip).map (·.1)

/-- `bimap::BiMap::insert`: an overwriting insert that deletes any existing
pair sharing the left value and any existing pair sharing the right
value. -/
def bimapInsert (m : List (Host × Nat)) (h : Host) (ip : Nat) : List (Host × Nat) :=
  (m.filter fun p => !(p.1 == h) && !(p.2 == ip)) ++ [(h, ip)]

/-- `bimap::BiMap::remove_by_left`. -/
def bimapRemoveByLeft (m : List (Host × Nat)) (h : Host) : List (Host × Nat) :=
  m.filter fun p => !(p.1 == h)

/-- `lru::LruCache::get` as used for recency refresh: promote the key to the
front when present (the cache holds `()` values, so only the order
matters). -/
def lruPromote (l : List Host) (h : Host) : List Host :=
  if h ∈ l then h :: l.erase h else l

/-- `lru::LruCache::push`: when the key is already present it is promoted and
the old entry (same key) is returned; when the cache is full the
least-recently-used entry is evicted and returned; otherwise the key is
inserted in front. -/
def lruPush (l : List Host) (cap : Nat) (h : Host) : List Host × Option Host :=
  if h ∈ l then (h :: l.erase h, some h)
  else if cap ≤ l.length then
    match l.getLast? with
    | some last => (h :: l.dropLast, some last)
    | none => (h :: l, none)
  else (h :: l, none)

/-- `lru::LruCache::pop`: drop the entry with the given key. -/
def lruPop (l : List Host) (h : Host) : List Host :=
  l.erase h

/-- `u8::to_ascii_lowercase` on a character: shift an ASCII capital into the
lowercase range, leave everything else alone. -/
def asciiLower (c : Char) : Char :=
  if 'A' ≤ c ∧ c ≤ 'Z' then Char.ofNat (c.toNat + 32) else c

/-- `str::eq_ignore_ascii_case`: byte-wise equality after ASCII
lower-casing both sides. -/
def eqIgnoreAsciiCase (a b : String) : Bool :=
  a.data.map asciiLower == b.data.map asciiLower

/-- `MemoryStore` (src/swiftlink-infra/src/fakedns/memory.rs): two
bidirectional host-to-address maps and a host LRU of capacity `cap`
(the source guarantees `cap` is nonzero via `NonZeroUsize`). -/
structure MemoryStore where
  host2ip4 : List (Host × Nat)
  host2ip6 : List (Host × Nat)
  hostLru : List Host
  cap : Nat
deriving DecidableEq

/-- A key handed to `get_fakeip`: the source discriminates by attempting
`parse::<IpAddr>()` on the bytes, so a key is an address exactly when it
is an IP string and a host otherwise. -/
inductive StoreKey where
  | host (h : Host)
  | ip (i : IpAddr)
deriving DecidableEq

/-- A value returned by `get_fakeip`: the bytes of a host name or the bytes
of `ip.to_string()` (IP-to-string-to-IP is the identity, so the address
value itself is stored). -/
inductive StoreVal where
  | host (h : Host)
  | ip (i : IpAddr)
deriving DecidableEq

/-- `MemoryStore::put_fakeip` (src/swiftlink-infra/src/fakedns/memory.rs
lines 73-89): push the host into the LRU; if this evicts an entry for a
different host, drop that host from both maps; then insert the pair into
the map of the address's family.  The source always returns `Ok(())`. -/
def MemoryStore.putFakeip (s : MemoryStore) (host : Host) (ip : IpAddr) : MemoryStore :=
  let pushed := lruPush s.hostLru s.cap host
  let s1 : MemoryStore := { s with hostLru := pushed.1 }
  let s2 : MemoryStore :=
    match pushed.2 with
    | some oldHost =>
      if eqIgnoreAsciiCase host oldHost = false then
        { s1 with
          host2ip4 := bimapRemoveByLeft s1.host2ip4 oldHost
          host2ip6 := bimapRemoveByLeft s1.host2ip6 oldHost }
      else s1
    | none => s1
  match ip with
  | .v4 a => { s2 with host2ip4 := bimapInsert s2.host2ip4 host a }
  | .v6 a => { s2 with host2ip6 := bimapInsert s2.host2ip6 host a }

/-- `MemoryStore::get_fakeip` (src/swiftlink-infra/src/fakedns/memory.rs
lines 30-71): an IP key is looked up in the reverse direction of the map
of its own family (the `ipv6` flag is ignored), a host key in the forward
direction of the map selected by the `ipv6` flag; a hit refreshes the
host's LRU recency.  Returns the value and the updated store. -/
def MemoryStore.getFakeip (s : MemoryStore) (k : StoreKey) (ipv6 : Bool) :
    Option StoreVal × MemoryStore :=
  match k with
  | .ip (.v4 a) =>
    match bimapGetByRight s.host2ip4 a with
    | some h => (some (.host h), { s with hostLru := lruPromote s.hostLru h })
    | none => (none, s)
  | .ip (.v6 a) =>
    match bimapGetByRight s.host2ip6 a with
    | some h => (some (.host h), { s with hostLru := lruPromote s.hostLru h })
    | none => (none, s)
  | .host h =>
    let ipOpt : Option IpAddr :=
      if ipv6 = false then (bimapGetByLeft s.host2ip4 h).map .v4
      else (bimapGetByLeft s.host2ip6 h).map .v6
    match ipOpt with
    | some i => (some (.ip i), { s with hostLru := lruPromote s.hostLru h })
    | none => (none, s)

/-- `MemoryStore::delete_fakeip` (src/swiftlink-infra/src/fakedns/memory.rs
lines 91-97): remove the host from both maps and from the LRU.  The `_ip`
argument is unused by the source; the Bool is the `io::Result` outcome
(`true` = `Ok(())`, which the source always returns). -/
def MemoryStore.deleteFakeip (s : MemoryStore) (host : Host) (_ip : IpAddr) :
    MemoryStore × Bool :=
  ({ s with
      host2ip4 := bimapRemoveByLeft s.host2ip4 host
      host2ip6 := bimapRemoveByLeft s.host2ip6 host
      hostLru := lruPop s.hostLru host },
    true)

/-- `MemoryStore::exists` (src/swiftlink-infra/src/fakedns/memory.rs lines
99-104): reverse-map membership in the family's map; does not touch the
LRU. -/
def MemoryStore.existsIp (s : MemoryStore) (ip : IpAddr) : Bool :=
  match ip with
  | .v4 a => (bimapGetByRight s.host2ip4 a).isSome
  | .v6 a => (bimapGetByRight s.host2ip6 a).isSome

/-- `FakeDns` (src/swiftlink-infra/src/fakedns/mod.rs), specialised to the
memory store variant cited by the claims: rolling `offset`, slot count
`total`, the two address ranges, and the store. -/
structure FakeDns where
  offset : Nat
  total : Nat
  ipnet : Ipv4Net
  ipnet6 : Ipv6Net
  store : MemoryStore
deriving DecidableEq

/-- The allocation scan loop of `FakeDns::get`
(src/swiftlink-infra/src/fakedns/mod.rs lines 162-181), with explicit fuel
(the Rust loop performs at most `total` iterations before the
`offset == current` branch breaks, so fuel `total + 1` is enough; the
fuel-exhaustion case is unreachable).  Returns the final offset and
store. -/
def getLoop (ipnet : Ipv4Net) (ipnet6 : Ipv6Net) (total : Nat) (host : Host)
    (current : Nat) : Nat → Nat → MemoryStore → Nat × MemoryStore
  | 0, offset, store => (offset, store)
  | fuel + 1, offset, store =>
    let ip4 := genNextIpv4 ipnet offset
    let ip6 := genNextIpv6 ipnet6 offset
    if store.existsIp (.v4 ip4) = false ∧ store.existsIp (.v6 ip6) = false then
      (offset, store)
    else
      let offset' := (offset + 1) % total
      if offset' = current then
        let offset'' := (offset' + 1) % total
        let ip4' := genNextIpv4 ipnet offset''
        let ip6' := genNextIpv6 ipnet6 offset''
        let store1 := (store.deleteFakeip host (.v4 ip4')).1
        let store2 := (store1.deleteFakeip host (.v6 ip6')).1
        (offset'', store2)
      else getLoop ipnet ipnet6 total host current fuel offset' store

/-- `FakeDns::get` (src/swiftlink-infra/src/fakedns/mod.rs lines 162-192):
scan for a free offset (forcibly reusing the next slot after a full
cycle), then write both the v4 and the v6 mapping for the host through the
store and return the pair. -/
def FakeDns.get (fd : FakeDns) (host : Host) : (Nat × Nat) × FakeDns :=
  let scan := getLoop fd.ipnet fd.ipnet6 fd.total host fd.offset (fd.total + 1)
    fd.offset fd.store
  let ip4 := genNextIpv4 fd.ipnet scan.1
  let ip6 := genNextIpv6 fd.ipnet6 scan.1
  let store1 := scan.2.putFakeip host (.v4 ip4)
  let store2 := store1.putFakeip host (.v6 ip6)
  ((ip4, ip6), { fd with offset := scan.1, store := store2 })

/-- `FakeDns::lookup_ip` (src/swiftlink-infra/src/fakedns/mod.rs lines
114-130): return the stored mapping when present (the stored value is an
IP string, which parses back to the address), otherwise allocate a fresh
pair and return the requested family. -/
def FakeDns.lookup_ip (fd : FakeDns) (host : Host) (ipv6 : Bool) :
    Option IpAddr × FakeDns :=
  match fd.store.getFakeip (.host host) ipv6 with
  | (some (.ip i), s) => (some i, { fd with store := s })
  | (some (.host _), s) => (none, { fd with store := s })
  | (none, _) =>
    let r := fd.get host
    (some (if ipv6 then .v6 r.1.2 else .v4 r.1.1), r.2)

/-- `FakeDns::lookup_host` (src/swiftlink-infra/src/fakedns/mod.rs lines
132-137): reverse lookup through the store. -/
def FakeDns.lookup_host (fd : FakeDns) (ip : IpAddr) : Option Host × FakeDns :=
  match fd.store.getFakeip (.ip ip) ip.isIpv6 with
  | (some (.host h), s) => (some h, { fd with store := s })
  | (some (.ip _), s) => (none, { fd with store := s })
  | (none, s) => (none, { fd with store := s })

/-- `FakeDns::is_fake_ip` (src/swiftlink-infra/src/fakedns/mod.rs lines
154-159): range containment in the family's configured net. -/
def FakeDns.is_fake_ip (fd : FakeDns) (ip : IpAddr) : Bool :=
  match ip with
  | .v4 a => fd.ipnet.containsIp a
  | .v6 a => fd.ipnet6.containsIp a

end FakeIP

namespace Trie

/-- `consts::WILDCARD` (src/swiftlink-infra/src/trie/domain_trie.rs). -/
def WILDCARD : String := "*"

/-- `consts::DOT_WILDCARD`: the empty-label sentinel. -/
def DOT_WILDCARD : String := ""

/-- `consts::COMPLEX_WILDCARD`. -/
def COMPLEX_WILDCARD : String := "+"

/-- `DomainTrieError` (src/swiftlink-infra/src/trie/domain_trie.rs). -/
inductive DomainTrieError where
  | invalidDomain (domain : String)
deriving DecidableEq

/-- Rust `str::split('.')` on the character list of a domain: splits at every
dot, keeping empty segments (and producing one empty segment for the empty
string), exactly as the `Split` iterator does. -/
def splitCharsAux : List Char → List Char → List String
  | [], acc => [String.mk acc.reverse]
  | c :: cs, acc =>
    if c = '.' then String.mk acc.reverse :: splitCharsAux cs []
    else splitCharsAux cs (c :: acc)

/-- `domain.split('.')` collected into a vector of label strings. -/
def splitDomain (s : String) : List String :=
  splitCharsAux s.data []

/-- Rust `str::ends_with('.')`. -/
def endsWithDot (s : String) : Bool :=
  match s.data.getLast? with
  | some c => c == '.'
  | none => false

/-- `valid_and_split_domain` (src/swiftlink-infra/src/trie/domain_trie.rs
lines 114-135): reject a non-empty domain ending with a dot; split on
dots; a single-label domain must be non-empty; a multi-label domain must
have no empty label after the first (the first label may be empty, which
encodes the leading-dot form). -/
def validAndSplitDomain (domain : String) : Except DomainTrieError (List String) :=
  if domain.data.isEmpty = false ∧ endsWithDot domain = true then
    .error (.invalidDomain domain)
  else
    let parts := splitDomain domain
    match parts with
    | [] => .ok parts
    | p0 :: rest =>
      if rest.isEmpty then
        if p0.data.isEmpty then .error (.invalidDomain domain) else .ok parts
      else if rest.any (fun p => p.data.isEmpty) then .error (.invalidDomain domain)
      else .ok parts

/-- `TrieNode` (src/swiftlink-infra/src/trie/mod.rs): optional payload plus
children keyed by label (the source's HashMap is modelled as an
association list with distinct keys). -/
inductive TrieNode (T : Type) where
  | node (data : Option T) (children : List (String × TrieNode T))

/-- Payload projection. -/
def TrieNode.getData : TrieNode T → Option T
  | .node d _ => d

/-- Children projection. -/
def TrieNode.getChildren : TrieNode T → List (String × TrieNode T)
  | .node _ cs => cs

/-- `HashMap::get` on the children. -/
def childrenGet (cs : List (String × TrieNode T)) (k : String) : Option (TrieNode T) :=
  (cs.find? fun p => p.1 == k).map (·.2)

/-- Replace the child stored under an existing key. -/
def childrenReplace (cs : List (String × TrieNode T)) (k : String) (v : TrieNode T) :
    List (String × TrieNode T) :=
  cs.map fun p => if p.1 == k then (k, v) else p

/-- The body of `DomainTrie::insert_inner` (src/swiftlink-infra/src/trie/
domain_trie.rs lines 63-75): the source iterates `parts.iter().rev()`,
descending through `children.entry(part).or_insert(TrieNode::new())` and
finally setting the payload; here the recursion consumes the already
reversed label list. -/
def insertRev : TrieNode T → List String → T → TrieNode T
  | nd, [], data => .node (some data) nd.getChildren
  | nd, p :: rest, data =>
    match childrenGet nd.getChildren p with
    | some c => .node nd.getData (childrenReplace nd.getChildren p (insertRev c rest data))
    | none => .node nd.getData (nd.getChildren ++ [(p, insertRev (.node none []) rest data)])

/-- `DomainTrie` wraps the root node. -/
structure DomainTrie (T : Type) where
  root : TrieNode T

/-- `DomainTrie::new`. -/
def DomainTrie.empty : DomainTrie T :=
  ⟨.node none []⟩

/-- `DomainTrie::insert_inner` on an unreversed label list. -/
def insertInner (t : DomainTrie T) (parts : List String) (data : T) : DomainTrie T :=
  ⟨insertRev t.root parts.reverse data⟩

/-- `DomainTrie::insert` (src/swiftlink-infra/src/trie/domain_trie.rs lines
50-61): validate and split; when the leftmost label is `+`, insert once at
the path without that label and once with the label replaced by the
empty-label sentinel; otherwise insert at the split path.  The source
mutates in place and returns `Result`; here the updated trie is returned
in the `Except`. -/
def DomainTrie.insert (t : DomainTrie T) (domain : String) (data : T) :
    Except DomainTrieError (DomainTrie T) :=
  match validAndSplitDomain domain with
  | .error e => .error e
  | .ok parts =>
    match parts with
    | [] => .ok t
    | p0 :: rest =>
      if p0 = COMPLEX_WILDCARD then
        let t1 := insertInner t rest data
        .ok (insertInner t1 (DOT_WILDCARD :: rest) data)
      else .ok (insertInner t (p0 :: rest) data)

/-- `DomainTrie::search_inner` (src/swiftlink-infra/src/trie/domain_trie.rs
lines 88-108): with no labels left, the node's payload; otherwise try the
exact child, then the `*` child, and finally the payload of the
empty-label child. -/
def searchInner : TrieNode T → List String → Option T
  | nd, [] => nd.getData
  | nd, p :: rest =>
    match
      match childrenGet nd.getChildren p with
      | some c => searchInner c rest
      | none => none
    with
    | some v => some v
    | none =>
      match
        match childrenGet nd.getChildren WILDCARD with
        | some c => searchInner c rest
        | none => none
      with
      | some v => some v
      | none => (childrenGet nd.getChildren DOT_WILDCARD).bind TrieNode.getData

/-- `DomainTrie::search` (src/swiftlink-infra/src/trie/domain_trie.rs lines
77-86): on a valid split whose first label is non-empty, walk the trie on
the reversed labels; `None` otherwise. -/
def DomainTrie.search (t : DomainTrie T) (domain : String) : Option T :=
  match validAndSplitDomain domain with
  | .error _ => none
  | .ok parts =>
    match parts with
    | [] => none
    | p0 :: rest =>
      if p0.data.isEmpty = false then searchInner t.root (p0 :: rest).reverse
      else none

/-- Decidable check that an `Except` is `ok` (used to state acceptance by
`insert`). -/
def exceptIsOk : Except ε α → Bool
  | .ok _ => true
  | .error _ => false

end Trie

end Swiftlink

open Swiftlink

/-- The minimum returned by `Iterator::min` is one of the TTLs. -/
theorem minTtl_mem (ttls : List Nat) (m : Nat) (h : Client.minTtl ttls = some m) :
    m ∈ ttls := by
  induction ttls with
  | nil => simp [Client.minTtl] at h
  | cons t ts ih =>
    rw [Client.minTtl] at h
    cases hts : Client.minTtl ts with
    | none => rw [hts] at h; simp at h; simp [h]
    | some m' =>
      rw [hts] at h
      simp at h
      rcases Nat.le_total t m' with hle | hle
      · rw [min_eq_left hle] at h
        simp [← h]
      · rw [min_eq_right hle] at h
        exact List.mem_cons_of_mem _ (ih (by rw [hts, h]))

/-- C1 (counterexample): the deadline computation of `NameServer::lookup`
does not clamp the minimum answer TTL to `MAX_TTL`: an answer set whose
single record has TTL 86 401 yields `valid_until = now + 86 401`, which
exceeds `now + MAX_TTL`. -/
theorem c1_deadline_not_clamped :
    MAX_TTL = 86400 ∧
    Client.lookupValidUntil 0 [86401] = 86401 ∧
    ¬(Client.lookupValidUntil 0 [86401] ≤ 0 + MAX_TTL) := by
  refine ⟨rfl, rfl, ?_⟩
  decide

/-- C1 (amended): the `Lookup` deadline computed by `NameServer::lookup`
equals `now + min(TTL across the answers)` for a non-empty answer set
(without clamping) and `now + MAX_TTL` for an empty one; `valid_until ≥
now` always holds at construction, and `valid_until ≤ now + MAX_TTL` holds
whenever every answer TTL is at most `MAX_TTL`. -/
theorem c1_lookup_deadline (now : Nat) (ttls : List Nat) :
    now ≤ Client.lookupValidUntil now ttls ∧
    (ttls = [] → Client.lookupValidUntil now ttls = now + MAX_TTL) ∧
    (∀ m, Client.minTtl ttls = some m →
      Client.lookupValidUntil now ttls = now + m) ∧
    ((∀ t ∈ ttls, t ≤ MAX_TTL) →
      Client.lookupValidUntil now ttls ≤ now + MAX_TTL) := by
  refine ⟨Nat.le_add_right _ _, ?_, ?_, ?_⟩
  · rintro rfl; rfl
  · intro m hm; simp [Client.lookupValidUntil, hm]
  · intro hb
    cases hm : Client.minTtl ttls with
    | none => simp [Client.lookupValidUntil, hm]
    | some m =>
      have := hb m (minTtl_mem ttls m hm)
      simp only [Client.lookupValidUntil, hm, Option.getD_some]
      omega

/-- C1 witness: concrete instance of the amended deadline theorem at
`now = 5`, TTLs `[100, 300]`. -/
theorem c1_lookup_deadline_witness :
    Client.lookupValidUntil 5 [100, 300] = 5 + 100 ∧
    Client.lookupValidUntil 5 [100, 300] ≤ 5 + MAX_TTL :=
  ⟨(c1_lookup_deadline 5 [100, 300]).2.2.1 100 (by decide),
   (c1_lookup_deadline 5 [100, 300]).2.2.2 (by decide)⟩

/-- C2: the `UDP_ASSOCIATE` arm of `socks5_impl::handle_client` executes the
`todo` macro and panics the connection task; it does not bind a UDP
socket, reply with its address, or enter the UDP relay as the
specification prescribes. -/
theorem c2_udp_associate_panics :
    Socks5.handleCommand .udpAssociate = .panicTodo ∧
    Socks5.handleCommand .udpAssociate ≠ .udpRelayEntered := by
  refine ⟨rfl, ?_⟩
  decide

/-- The racing loop, characterised: the first `Ok`-non-empty result in
completion order, else the last completion (the two sides agree on the
empty order as well, both being `none`). -/
theorem groupLookup_eq_find (order : List Client.LookupResult) :
    Client.groupLookup order =
      Option.orElse (order.find? Client.isOkNonEmpty) (fun _ => order.getLast?) := by
  induction order with
  | nil => rfl
  | cons r rest ih =>
    cases hr : Client.isOkNonEmpty r with
    | true => simp [Client.groupLookup, hr, List.find?, Option.orElse]
    | false =>
      cases rest with
      | nil => simp [Client.groupLookup, hr, List.find?, Option.orElse]
      | cons r' rest' =>
        rw [Client.groupLookup]
        simp only [hr, if_false, List.isEmpty_cons,
          if_neg (by simp : ¬((false : Bool) = true))]
        rw [ih]
        simp [List.find?, hr, List.getLast?_cons_cons]

/-- C4: for every non-empty completion order of the member lookups, the
group returns the first completed result that is `Ok` with a non-empty
record set, and otherwise the result of the last member to complete; in
particular, if any member's result is a non-empty `Ok`, the group's result
is a non-empty `Ok`. -/
theorem c4_group_lookup (order : List Client.LookupResult) (h : order ≠ []) :
    Client.groupLookup order =
      Option.orElse (order.find? Client.isOkNonEmpty) (fun _ => order.getLast?) ∧
    (∀ r ∈ order, Client.isOkNonEmpty r = true →
      ∃ res, Client.groupLookup order = some res ∧ Client.isOkNonEmpty res = true) := by
  refine ⟨groupLookup_eq_find order, ?_⟩
  intro r hr hok
  have hfind : ∃ w, order.find? Client.isOkNonEmpty = some w :=
    Option.isSome_iff_exists.1 (List.find?_isSome.2 ⟨r, hr, hok⟩)
  rcases hfind with ⟨w, hw⟩
  exact ⟨w, by rw [groupLookup_eq_find order, hw]; rfl, List.find?_some hw⟩

/-- C4 witness: a completion order where the second member returns a
non-empty answer. -/
theorem c4_group_lookup_witness :
    Client.groupLookup [.err, .ok ⟨[7]⟩, .err] = some (.ok ⟨[7]⟩) := by
  have h := (c4_group_lookup [.err, .ok ⟨[7]⟩, .err] (by simp)).1
  simpa using h

/-- C9: `NameServerGroup::lookup` on an empty server list never returns an
answer or an error (`select_all` over zero futures panics, modelled as
`none`), while every non-empty completion order produces a result:
non-emptiness of the group is an unstated precondition. -/
theorem c9_empty_group_never_returns :
    Client.groupLookup [] = none ∧
    ∀ order : List Client.LookupResult, order ≠ [] →
      (Client.groupLookup order).isSome = true := by
  refine ⟨rfl, ?_⟩
  intro order h
  induction order with
  | nil => exact absurd rfl h
  | cons r rest ih =>
    rw [Client.groupLookup]
    cases hr : Client.isOkNonEmpty r with
    | true => simp
    | false =>
      cases rest with
      | nil => simp
      | cons r' rest' =>
        simpa using ih (by simp)

/-- C9 witness: the panic case and a concrete one-member order. -/
theorem c9_empty_group_witness :
    Client.groupLookup [] = none ∧
    (Client.groupLookup [Client.LookupResult.err]).isSome = true :=
  ⟨c9_empty_group_never_returns.1,
   c9_empty_group_never_returns.2 [Client.LookupResult.err] (by simp)⟩

/-- C5 (counterexample): with no credential store configured and a client
offering only `PASSWORD`, `check_auth` replies `PASSWORD` and proceeds to
the sub-negotiation, not `NO_ACCEPTABLE_METHODS` as the claim's
"exactly when a credential store is configured AND the client offers
PASSWORD" requires. -/
theorem c5_password_without_store :
    Socks5.checkAuthReply [Socks5.SOCKS5_AUTH_METHOD_PASSWORD] false =
      Socks5.SOCKS5_AUTH_METHOD_PASSWORD ∧
    Socks5.SOCKS5_AUTH_METHOD_PASSWORD ≠ Socks5.SOCKS5_AUTH_METHOD_NOT_ACCEPTABLE := by
  refine ⟨rfl, ?_⟩
  decide

/-- C5 (amended): the server scans the offered methods in order and replies
to the first method that is `PASSWORD` (regardless of the credential
store) or that is `NONE` while no credential store is configured; when no
offered method qualifies it replies `NO_ACCEPTABLE_METHODS`.  With a
credential store, the password sub-negotiation replies status 0 and
succeeds exactly when both fields are valid UTF-8 and the authenticator
verifies them, and replies 0xFF otherwise. -/
theorem c5_check_auth (methods : List Nat) (hasAuth : Bool) (u p v : Bool) :
    Socks5.checkAuthReply methods hasAuth =
      (match methods.find? (Socks5.relevantAuthMethod hasAuth) with
       | some m => m
       | none => Socks5.SOCKS5_AUTH_METHOD_NOT_ACCEPTABLE) ∧
    ((Socks5.checkAuthPassword true u p v).1 = some 0 ↔ (u && p && v) = true) ∧
    ((Socks5.checkAuthPassword true u p v).2 = true ↔ (u && p && v) = true) ∧
    ((Socks5.checkAuthPassword true u p v).1 = some 255 ↔ (u && p && v) = false) := by
  refine ⟨?_, ?_, ?_, ?_⟩
  · induction methods with
    | nil => rfl
    | cons m rest ih =>
      by_cases h2 : m = Socks5.SOCKS5_AUTH_METHOD_PASSWORD
      · subst h2
        simp [Socks5.checkAuthReply, List.find?, Socks5.relevantAuthMethod]
      · by_cases h0 : m = Socks5.SOCKS5_AUTH_METHOD_NONE ∧ hasAuth = false
        · rcases h0 with ⟨h0, hA⟩
          subst h0; subst hA
          simp [Socks5.checkAuthReply, List.find?, Socks5.relevantAuthMethod,
            Socks5.SOCKS5_AUTH_METHOD_NONE, Socks5.SOCKS5_AUTH_METHOD_PASSWORD]
        · rw [Socks5.checkAuthReply, if_neg h2, if_neg h0, ih]
          have hrel : Socks5.relevantAuthMethod hasAuth m = false := by
            simp only [Socks5.relevantAuthMethod, Socks5.SOCKS5_AUTH_METHOD_PASSWORD,
              Socks5.SOCKS5_AUTH_METHOD_NONE] at *
            cases hA : hasAuth with
            | true => simp [h2]
            | false =>
              subst hA
              simp only [Bool.or_eq_false_iff, Bool.and_eq_false_iff]
              constructor
              · simpa using h2
              · left
                simpa using fun hc => h0 ⟨hc, rfl⟩
          simp [List.find?, hrel]
  · cases u <;> cases p <;> cases v <;> decide
  · cases u <;> cases p <;> cases v <;> decide
  · cases u <;> cases p <;> cases v <;> decide

/-- The forwarded (non-BADVERS) response never carries an EDNS section. -/
theorem forwardResponse_edns_none (req : Server.Request) (search : Server.SearchResult) :
    (Server.forwardResponse req search).edns = none := by
  rw [Server.forwardResponse.eq_def]
  by_cases h : req.recursionDesired = false
  · simp [h]
  · cases search with
    | found answers => simp [h]
    | failure nx soa => simp [h]

/-- C6 (counterexample): a version-0 EDNS request is answered without any
EDNS section: `send_response` ignores the computed `response_edns` (the
dnssec feature is disabled), so nothing is echoed. -/
theorem c6_edns_not_echoed :
    Server.handleRequest ⟨.query, .query, some ⟨1232, 0⟩, true⟩ (.found [1]) =
      ⟨.noError, none, [1]⟩ ∧
    (none : Option Server.RespEdns) ≠ some ⟨Nat.max 1232 512, 0, true⟩ := by
  refine ⟨rfl, ?_⟩
  decide

/-- C6 (amended): for a query-typed, query-opcode request carrying EDNS, the
server builds `resp_edns = (max(req.max_payload, 512), version 0,
dnssec_ok = true)`; when the request's EDNS version exceeds 0 it replies
BADVERS carrying that section and stops, and when the version is 0 the
section is dropped by `send_response` (dnssec feature disabled) and the
response carries no EDNS. -/
theorem c6_edns_handling (req : Server.Request) (search : Server.SearchResult)
    (e : Server.ReqEdns) (hm : req.msgType = .query) (ho : req.opCode = .query)
    (he : req.edns = some e) :
    (0 < e.version →
      Server.handleRequest req search =
        ⟨.badVers, some ⟨Nat.max e.maxPayload 512, 0, true⟩, []⟩) ∧
    (e.version = 0 → (Server.handleRequest req search).edns = none) := by
  obtain ⟨mt, oc, ed, rd⟩ := req
  simp only at hm ho he
  subst hm; subst ho; subst he
  constructor
  · intro hv
    rw [Server.handleRequest]
    simp [hv]
  · intro hv
    rw [Server.handleRequest]
    simp only [hv, gt_iff_lt, Nat.lt_irrefl, if_false]
    exact forwardResponse_edns_none _ search

/-- C6 witness: a version-1 EDNS request gets BADVERS with the echoed EDNS
section; a version-0 request gets a response without EDNS. -/
theorem c6_edns_handling_witness :
    Server.handleRequest ⟨.query, .query, some ⟨1024, 1⟩, true⟩ (.found []) =
      ⟨.badVers, some ⟨1024, 0, true⟩, []⟩ ∧
    (Server.handleRequest ⟨.query, .query, some ⟨1024, 0⟩, true⟩ (.found [])).edns =
      none :=
  ⟨by
    have h :=
      (c6_edns_handling ⟨.query, .query, some ⟨1024, 1⟩, true⟩ (.found [])
        ⟨1024, 1⟩ rfl rfl rfl).1 (by decide)
    simpa using h,
   (c6_edns_handling ⟨.query, .query, some ⟨1024, 0⟩, true⟩ (.found [])
      ⟨1024, 0⟩ rfl rfl rfl).2 rfl⟩

/-- C8 (counterexample): `gen_next_ipv4` is not bounded by the range for
arbitrary offsets: on 198.18.0.0/29 (8 addresses, at least 3) the offset 8
produces network + 10, which lies outside the range. -/
theorem c8_gen_outside_range :
    3 ≤ 2 ^ (32 - (29 : Nat)) ∧
    FakeIP.genNextIpv4 ⟨3323068416, 29⟩ 8 = 3323068426 ∧
    FakeIP.Ipv4Net.containsIp ⟨3323068416, 29⟩
      (FakeIP.genNextIpv4 ⟨3323068416, 29⟩ 8) = false := by
  refine ⟨by decide, by decide, by decide⟩

/-- C8 (amended): for a range of at least 3 addresses (prefix at most 30)
that fits below 2^32, `gen(range, 0) = network + 2`, and `gen(range, k)`
lies within the range for every `k` below `total = 2^(32-prefix) - 2`
(the allocator's offsets are always below `total`; for larger `k` the
address leaves the range, as the counterexample shows). -/
theorem c8_gen_within_range (net : FakeIP.Ipv4Net)
    (hp : net.prefixLen ≤ 30)
    (hfit : net.network + 2 ^ (32 - net.prefixLen) ≤ 2 ^ 32) :
    FakeIP.genNextIpv4 net 0 = net.network + 2 ∧
    ∀ k, k < 2 ^ (32 - net.prefixLen) - 2 →
      FakeIP.Ipv4Net.containsIp net (FakeIP.genNextIpv4 net k) = true := by
  have hbig : 4 ≤ 2 ^ (32 - net.prefixLen) := by
    calc (4 : Nat) = 2 ^ 2 := by norm_num
    _ ≤ 2 ^ (32 - net.prefixLen) := Nat.pow_le_pow_right (by norm_num) (by omega)
  constructor
  · rw [FakeIP.genNextIpv4]
    exact Nat.mod_eq_of_lt (by omega)
  · intro k hk
    rw [FakeIP.genNextIpv4, FakeIP.Ipv4Net.containsIp]
    rw [Nat.mod_eq_of_lt (by omega)]
    rw [FakeIP.Ipv4Net.broadcast]
    simp only [decide_eq_true_eq]
    omega

/-- C8 witness: the amended generator bound at 198.18.0.0/29 with offsets 0
and 3. -/
theorem c8_gen_within_range_witness :
    FakeIP.genNextIpv4 ⟨3323068416, 29⟩ 0 = 3323068416 + 2 ∧
    FakeIP.Ipv4Net.containsIp ⟨3323068416, 29⟩
      (FakeIP.genNextIpv4 ⟨3323068416, 29⟩ 3) = true :=
  ⟨(c8_gen_within_range ⟨3323068416, 29⟩ (by decide) (by decide)).1,
   (c8_gen_within_range ⟨3323068416, 29⟩ (by decide) (by decide)).2 3 (by decide)⟩

/-- Removing a host by its left key makes the forward lookup miss. -/
theorem getByLeft_removeByLeft (m : List (FakeIP.Host × Nat)) (h : FakeIP.Host) :
    FakeIP.bimapGetByLeft (FakeIP.bimapRemoveByLeft m h) h = none := by
  rw [FakeIP.bimapGetByLeft, FakeIP.bimapRemoveByLeft]
  have : List.find? (fun p => p.1 == h) (m.filter fun p => !(p.1 == h)) = none := by
    rw [List.find?_eq_none]
    intro x hx
    have := (List.mem_filter.1 hx).2
    simpa using this
  rw [this]
  rfl

/-- C10: `MemoryStore::delete_fakeip` ignores its `ip` argument entirely: the
result is the same for any two addresses, the call returns `Ok`, the
host's forward mapping is gone in both families, and the host's LRU entry
is removed. -/
theorem c10_delete_ignores_ip (s : FakeIP.MemoryStore) (h : FakeIP.Host)
    (ip ip' : FakeIP.IpAddr) (b : Bool) :
    FakeIP.MemoryStore.deleteFakeip s h ip = FakeIP.MemoryStore.deleteFakeip s h ip' ∧
    (FakeIP.MemoryStore.deleteFakeip s h ip).2 = true ∧
    ((FakeIP.MemoryStore.deleteFakeip s h ip).1.getFakeip (.host h) b).1 = none ∧
    (s.hostLru.Nodup → h ∉ (FakeIP.MemoryStore.deleteFakeip s h ip).1.hostLru) := by
  refine ⟨rfl, rfl, ?_, ?_⟩
  · cases b <;>
      simp [FakeIP.MemoryStore.getFakeip, FakeIP.MemoryStore.deleteFakeip,
        getByLeft_removeByLeft]
  · intro hnd hmem
    rw [FakeIP.MemoryStore.deleteFakeip] at hmem
    simp only [FakeIP.lruPop] at hmem
    exact absurd ((List.Nodup.mem_erase_iff hnd).1 hmem).1 (by simp)

/-- C10 witness: deleting `a` from a concrete store with a v4 and a v6
argument produces the same `Ok` result with `a` fully removed. -/
theorem c10_delete_ignores_ip_witness :
    FakeIP.MemoryStore.deleteFakeip ⟨[("a", 1)], [("a", 9)], ["a"], 2⟩ ("a") (.v4 1) =
      FakeIP.MemoryStore.deleteFakeip ⟨[("a", 1)], [("a", 9)], ["a"], 2⟩ ("a") (.v6 9) ∧
    (FakeIP.MemoryStore.deleteFakeip ⟨[("a", 1)], [("a", 9)], ["a"], 2⟩ ("a") (.v4 1)).2 =
      true ∧
    ((FakeIP.MemoryStore.deleteFakeip ⟨[("a", 1)], [("a", 9)], ["a"], 2⟩ ("a")
        (.v4 1)).1.getFakeip (.host ("a")) false).1 = none ∧
    ("a" : FakeIP.Host) ∉
      (FakeIP.MemoryStore.deleteFakeip ⟨[("a", 1)], [("a", 9)], ["a"], 2⟩ ("a")
        (.v4 1)).1.hostLru := by
  have h := c10_delete_ignores_ip ⟨[("a", 1)], [("a", 9)], ["a"], 2⟩ ("a") (.v4 1)
    (.v6 9) false
  exact ⟨h.1, h.2.1, h.2.2.1, h.2.2.2 (by decide)⟩

/-- Forward lookup after a bidirectional insert finds the inserted pair. -/
theorem getByLeft_insert (m : List (FakeIP.Host × Nat)) (h : FakeIP.Host) (a : Nat) :
    FakeIP.bimapGetByLeft (FakeIP.bimapInsert m h a) h = some a := by
  rw [FakeIP.bimapInsert, FakeIP.bimapGetByLeft]
  induction m with
  | nil => simp
  | cons p m' ih =>
    by_cases hp : (!(p.1 == h) && !(p.2 == a)) = true
    · rw [List.filter_cons, if_pos hp]
      have hne : (p.1 == h) = false := by
        rcases Bool.and_eq_true_iff.1 hp with ⟨h1, _⟩
        simpa using h1
      rw [List.cons_append, List.find?_cons_of_neg _ (by simp [hne])]
      exact ih
    · rw [List.filter_cons, if_neg hp]
      exact ih

/-- Reverse lookup after a bidirectional insert finds the inserted pair. -/
theorem getByRight_insert (m : List (FakeIP.Host × Nat)) (h : FakeIP.Host) (a : Nat) :
    FakeIP.bimapGetByRight (FakeIP.bimapInsert m h a) a = some h := by
  rw [FakeIP.bimapInsert, FakeIP.bimapGetByRight]
  induction m with
  | nil => simp
  | cons p m' ih =>
    by_cases hp : (!(p.1 == h) && !(p.2 == a)) = true
    · rw [List.filter_cons, if_pos hp]
      have hne : (p.2 == a) = false := by
        rcases Bool.and_eq_true_iff.1 hp with ⟨_, h2⟩
        simpa using h2
      rw [List.cons_append, List.find?_cons_of_neg _ (by simp [hne])]
      exact ih
    · rw [List.filter_cons, if_neg hp]
      exact ih

/-- `lru::LruCache::push` always leaves the pushed key in front. -/
theorem lruPush_fst_head (l : List FakeIP.Host) (cap : Nat) (h : FakeIP.Host) :
    ∃ t, (FakeIP.lruPush l cap h).1 = h :: t := by
  rw [FakeIP.lruPush]
  split_ifs with h1 h2
  · exact ⟨l.erase h, rfl⟩
  · rcases hl : l.getLast? with _ | last
    · exact ⟨l, by simp [hl]⟩
    · exact ⟨l.dropLast, by simp [hl]⟩
  · exact ⟨l, rfl⟩

/-- After `put_fakeip` the host is in the LRU. -/
theorem putFakeip_mem_hostLru (s : FakeIP.MemoryStore) (h : FakeIP.Host)
    (ip : FakeIP.IpAddr) :
    h ∈ (s.putFakeip h ip).hostLru := by
  obtain ⟨t, ht⟩ := lruPush_fst_head s.hostLru s.cap h
  rcases hpush : FakeIP.lruPush s.hostLru s.cap h with ⟨l', ev⟩
  rw [hpush] at ht
  simp only at ht
  simp only [FakeIP.MemoryStore.putFakeip, hpush]
  cases ip <;> cases ev <;> simp [ht] <;> split_ifs <;> simp [ht]

/-- A v6 `put_fakeip` for a host already at the front of the LRU leaves the
v4 map untouched (the LRU returns the host itself as the old entry, and
the case-insensitive comparison then skips the eviction cleanup). -/
theorem putFakeip_v6_host2ip4 (s : FakeIP.MemoryStore) (h : FakeIP.Host) (b : Nat)
    (hmem : h ∈ s.hostLru) :
    (s.putFakeip h (.v6 b)).host2ip4 = s.host2ip4 := by
  simp only [FakeIP.MemoryStore.putFakeip, FakeIP.lruPush, if_pos hmem]
  simp [FakeIP.eqIgnoreAsciiCase]

/-- A v6 `put_fakeip` for a host already at the front of the LRU performs the
bidirectional v6 insert. -/
theorem putFakeip_v6_host2ip6 (s : FakeIP.MemoryStore) (h : FakeIP.Host) (b : Nat)
    (hmem : h ∈ s.hostLru) :
    (s.putFakeip h (.v6 b)).host2ip6 = FakeIP.bimapInsert s.host2ip6 h b := by
  simp only [FakeIP.MemoryStore.putFakeip, FakeIP.lruPush, if_pos hmem]
  simp [FakeIP.eqIgnoreAsciiCase]

/-- The v4 reverse lookup hits the host right after a v4 `put_fakeip`,
whatever eviction the LRU performed. -/
theorem putFakeip_v4_getByRight (s : FakeIP.MemoryStore) (h : FakeIP.Host) (a : Nat) :
    FakeIP.bimapGetByRight ((s.putFakeip h (.v4 a)).host2ip4) a = some h := by
  rcases hpush : FakeIP.lruPush s.hostLru s.cap h with ⟨l', ev⟩
  simp only [FakeIP.MemoryStore.putFakeip, hpush]
  cases ev <;> simp [getByRight_insert] <;> split_ifs <;> simp [getByRight_insert]

/-- A miss of `get_fakeip` on a host key leaves the store untouched. -/
theorem getFakeip_host_none (s : FakeIP.MemoryStore) (h : FakeIP.Host) (b : Bool)
    (hn : (s.getFakeip (.host h) b).1 = none) :
    s.getFakeip (.host h) b = (none, s) := by
  rw [FakeIP.MemoryStore.getFakeip] at hn ⊢
  rcases hopt : (if b = false then (FakeIP.bimapGetByLeft s.host2ip4 h).map FakeIP.IpAddr.v4
      else (FakeIP.bimapGetByLeft s.host2ip6 h).map FakeIP.IpAddr.v6) with _ | i
  · simp only [hopt]
  · rw [hopt] at hn
    simp at hn

/-- The allocation scan keeps the offset below `total`. -/
theorem getLoop_offset_lt (ipnet : FakeIP.Ipv4Net) (ipnet6 : FakeIP.Ipv6Net)
    (total : Nat) (host : FakeIP.Host) (current : Nat) (fuel : Nat) (offset : Nat)
    (store : FakeIP.MemoryStore) (h0 : 0 < total) (h1 : offset < total) :
    (FakeIP.getLoop ipnet ipnet6 total host current fuel offset store).1 < total := by
  induction fuel generalizing offset store with
  | zero => simpa using h1
  | succ n ih =>
    rw [FakeIP.getLoop]
    by_cases hfree :
        store.existsIp (.v4 (FakeIP.genNextIpv4 ipnet offset)) = false ∧
          store.existsIp (.v6 (FakeIP.genNextIpv6 ipnet6 offset)) = false
    · simp only [if_pos hfree]
      simpa using h1
    · simp only [if_neg hfree]
      by_cases hcur : (offset + 1) % total = current
      · simp only [if_pos hcur]
        exact Nat.mod_lt _ h0
      · simp only [if_neg hcur]
        exact ih _ _ (Nat.mod_lt _ h0)

/-- A generated v4 address with an in-bound offset lies in the range. -/
theorem gen4_in_range (net : FakeIP.Ipv4Net) (k : Nat)
    (hk : k < 2 ^ (32 - net.prefixLen) - 2)
    (hfit : net.network + 2 ^ (32 - net.prefixLen) ≤ 2 ^ 32) :
    net.containsIp (FakeIP.genNextIpv4 net k) = true := by
  rw [FakeIP.genNextIpv4, FakeIP.Ipv4Net.containsIp]
  rw [Nat.mod_eq_of_lt (by omega)]
  rw [FakeIP.Ipv4Net.broadcast]
  simp only [decide_eq_true_eq]
  omega

/-- A generated v6 address with an in-bound offset lies in the range. -/
theorem gen6_in_range (net : FakeIP.Ipv6Net) (k : Nat)
    (hk : k < 2 ^ (128 - net.prefixLen) - 2)
    (hfit : net.network + 2 ^ (128 - net.prefixLen) ≤ 2 ^ 128) :
    net.containsIp (FakeIP.genNextIpv6 net k) = true := by
  rw [FakeIP.genNextIpv6, FakeIP.Ipv6Net.containsIp]
  rw [Nat.mod_eq_of_lt (by omega)]
  rw [FakeIP.Ipv6Net.broadcast]
  simp only [decide_eq_true_eq]
  omega

/-- C3: (a) after `put_fakeip(h, ip)` the store answers `get(h)` with the
string form of `ip` and `get(ip-string)` with `h` (keys that parse as IP
strings take the reverse branch, host keys the forward branch); (b) for a
fresh allocation within capacity (the host has no mapping yet, the rolling
offset is in bounds, and both configured ranges hold at least `total + 2`
addresses), `lookup_ip(h, ipv6) = ip` implies `lookup_host(ip) = h` and
`is_fake_ip(ip) = true`. -/
theorem c3_fakeip_bidirectional :
    (∀ (s : FakeIP.MemoryStore) (h : FakeIP.Host) (ip : FakeIP.IpAddr),
      ((s.putFakeip h ip).getFakeip (.host h) ip.isIpv6).1 = some (.ip ip) ∧
      ((s.putFakeip h ip).getFakeip (.ip ip) ip.isIpv6).1 = some (.host h)) ∧
    (∀ (fd : FakeIP.FakeDns) (h : FakeIP.Host) (ipv6 : Bool) (ip : FakeIP.IpAddr)
        (fd' : FakeIP.FakeDns),
      (fd.store.getFakeip (.host h) ipv6).1 = none →
      0 < fd.total →
      fd.offset < fd.total →
      fd.total ≤ 2 ^ (32 - fd.ipnet.prefixLen) - 2 →
      fd.ipnet.network + 2 ^ (32 - fd.ipnet.prefixLen) ≤ 2 ^ 32 →
      fd.total ≤ 2 ^ (128 - fd.ipnet6.prefixLen) - 2 →
      fd.ipnet6.network + 2 ^ (128 - fd.ipnet6.prefixLen) ≤ 2 ^ 128 →
      fd.lookup_ip h ipv6 = (some ip, fd') →
      (fd'.lookup_host ip).1 = some h ∧ fd'.is_fake_ip ip = true) := by
  constructor
  · intro s h ip
    cases ip with
    | v4 a =>
      constructor
      · rcases hpush : FakeIP.lruPush s.hostLru s.cap h with ⟨l', ev⟩
        simp only [FakeIP.MemoryStore.putFakeip, hpush, FakeIP.MemoryStore.getFakeip,
          FakeIP.IpAddr.isIpv6]
        cases ev <;> simp [getByLeft_insert] <;> split_ifs <;> simp [getByLeft_insert]
      · rcases hpush : FakeIP.lruPush s.hostLru s.cap h with ⟨l', ev⟩
        simp only [FakeIP.MemoryStore.putFakeip, hpush, FakeIP.MemoryStore.getFakeip,
          FakeIP.IpAddr.isIpv6]
        cases ev <;> simp [getByRight_insert] <;> split_ifs <;> simp [getByRight_insert]
    | v6 a =>
      constructor
      · rcases hpush : FakeIP.lruPush s.hostLru s.cap h with ⟨l', ev⟩
        simp only [FakeIP.MemoryStore.putFakeip, hpush, FakeIP.MemoryStore.getFakeip,
          FakeIP.IpAddr.isIpv6]
        cases ev <;> simp [getByLeft_insert] <;> split_ifs <;> simp [getByLeft_insert]
      · rcases hpush : FakeIP.lruPush s.hostLru s.cap h with ⟨l', ev⟩
        simp only [FakeIP.MemoryStore.putFakeip, hpush, FakeIP.MemoryStore.getFakeip,
          FakeIP.IpAddr.isIpv6]
        cases ev <;> simp [getByRight_insert] <;> split_ifs <;> simp [getByRight_insert]
  · intro fd h ipv6 ip fd' hfresh h0 h1 hta hfa htb hfb heq
    have hpair := getFakeip_host_none fd.store h ipv6 hfresh
    rw [FakeIP.FakeDns.lookup_ip] at heq
    rw [hpair] at heq
    rcases hscan : FakeIP.getLoop fd.ipnet fd.ipnet6 fd.total h fd.offset
        (fd.total + 1) fd.offset fd.store with ⟨off, st⟩
    simp only [FakeIP.FakeDns.get, hscan] at heq
    have hoff : off < fd.total := by
      have := getLoop_offset_lt fd.ipnet fd.ipnet6 fd.total h fd.offset
        (fd.total + 1) fd.offset fd.store h0 h1
      rw [hscan] at this
      simpa using this
    rw [Prod.mk.injEq] at heq
    obtain ⟨hip, hfd⟩ := heq
    rw [Option.some.injEq] at hip
    subst hip
    subst hfd
    have hmem : h ∈ (st.putFakeip h (.v4 (FakeIP.genNextIpv4 fd.ipnet off))).hostLru :=
      putFakeip_mem_hostLru st h _
    cases hv : ipv6 with
    | false =>
      subst hv
      simp only [if_neg Bool.false_ne_true]
      constructor
      · rw [FakeIP.FakeDns.lookup_host]
        have hright : FakeIP.bimapGetByRight
            (((st.putFakeip h (.v4 (FakeIP.genNextIpv4 fd.ipnet off))).putFakeip h
              (.v6 (FakeIP.genNextIpv6 fd.ipnet6 off))).host2ip4)
            (FakeIP.genNextIpv4 fd.ipnet off) = some h := by
          rw [putFakeip_v6_host2ip4 _ _ _ hmem]
          exact putFakeip_v4_getByRight st h _
        simp only [FakeIP.MemoryStore.getFakeip, FakeIP.IpAddr.isIpv6, hright]
      · rw [FakeIP.FakeDns.is_fake_ip]
        exact gen4_in_range fd.ipnet off (by omega) hfa
    | true =>
      subst hv
      simp only [eq_self_iff_true, if_true]
      constructor
      · rw [FakeIP.FakeDns.lookup_host]
        have hright : FakeIP.bimapGetByRight
            (((st.putFakeip h (.v4 (FakeIP.genNextIpv4 fd.ipnet off))).putFakeip h
              (.v6 (FakeIP.genNextIpv6 fd.ipnet6 off))).host2ip6)
            (FakeIP.genNextIpv6 fd.ipnet6 off) = some h := by
          rw [putFakeip_v6_host2ip6 _ _ _ hmem]
          exact getByRight_insert _ h _
        simp only [FakeIP.MemoryStore.getFakeip, FakeIP.IpAddr.isIpv6, hright]
      · rw [FakeIP.FakeDns.is_fake_ip]
        exact gen6_in_range fd.ipnet6 off (by omega) hfb

/-- C3 witness: a concrete put/get round trip, and a concrete fresh
allocation on 198.18.0.0/29 with 2001:db8::/125 whose reverse lookup
returns the host and whose address is a fake IP. -/
theorem c3_fakeip_bidirectional_witness :
    (((⟨[], [], [], 2⟩ : FakeIP.MemoryStore).putFakeip ("foo.bar") (.v4 5)).getFakeip
        (.host ("foo.bar")) ((FakeIP.IpAddr.v4 5).isIpv6)).1 = some (.ip (.v4 5)) ∧
    (((⟨[], [], [], 2⟩ : FakeIP.MemoryStore).putFakeip ("foo.bar") (.v4 5)).getFakeip
        (.ip (.v4 5)) ((FakeIP.IpAddr.v4 5).isIpv6)).1 = some (.host ("foo.bar")) ∧
    ((((⟨0, 6, ⟨3323068416, 29⟩, ⟨0x20010db8 * 2 ^ 96, 125⟩, ⟨[], [], [], 8⟩⟩ :
          FakeIP.FakeDns).lookup_ip ("foo.bar") false).2.lookup_host
        (.v4 3323068418)).1 = some ("foo.bar") ∧
      ((⟨0, 6, ⟨3323068416, 29⟩, ⟨0x20010db8 * 2 ^ 96, 125⟩, ⟨[], [], [], 8⟩⟩ :
          FakeIP.FakeDns).lookup_ip ("foo.bar") false).2.is_fake_ip
        (.v4 3323068418) = true) :=
  ⟨(c3_fakeip_bidirectional.1 ⟨[], [], [], 2⟩ ("foo.bar") (.v4 5)).1,
   (c3_fakeip_bidirectional.1 ⟨[], [], [], 2⟩ ("foo.bar") (.v4 5)).2,
   c3_fakeip_bidirectional.2
     ⟨0, 6, ⟨3323068416, 29⟩, ⟨0x20010db8 * 2 ^ 96, 125⟩, ⟨[], [], [], 8⟩⟩
     ("foo.bar") false (.v4 3323068418) _
     (by decide) (by decide) (by decide) (by decide) (by decide) (by decide)
     (by decide) (by decide)⟩

/-- Core of the `+.d` wildcard behaviour: inserting a value at the reversed
path `rs` and again at `rs` extended with the empty-label sentinel makes
the exact-path search and the one-extra-label search both find the value
(`rs` is the reversed label list of the suffix domain, `x` the extra
leading label). -/
theorem searchInner_plus {T : Type} (rs : List String) (v : T) (x : String) :
    Trie.searchInner
        (Trie.insertRev (Trie.insertRev (Trie.TrieNode.node none []) rs v)
          (rs ++ [Trie.DOT_WILDCARD]) v) rs = some v ∧
    Trie.searchInner
        (Trie.insertRev (Trie.insertRev (Trie.TrieNode.node none []) rs v)
          (rs ++ [Trie.DOT_WILDCARD]) v) (rs ++ [x]) = some v := by
  induction rs with
  | nil =>
    constructor
    · rfl
    · by_cases hx : x = Trie.DOT_WILDCARD
      · subst hx
        rfl
      · have hb : (Trie.DOT_WILDCARD == x) = false :=
          beq_eq_false_iff_ne.2 fun h => hx h.symm
        simp [Trie.insertRev, Trie.searchInner, Trie.childrenGet,
          Trie.TrieNode.getData, Trie.TrieNode.getChildren, hb, Trie.DOT_WILDCARD,
          Trie.WILDCARD]
        rw [if_neg fun h => hx h.symm]
  | cons p rs' ih =>
    have step : ∀ (m : Trie.TrieNode T) (l : List String) (w : T),
        Trie.searchInner m l = some w →
        Trie.searchInner (Trie.TrieNode.node none [(p, m)]) (p :: l) = some w := by
      intro m l w hw
      have hget : Trie.childrenGet [(p, m)] p = some m := by
        simp [Trie.childrenGet, List.find?]
      rw [Trie.searchInner]
      simp only [Trie.TrieNode.getChildren]
      rw [hget]
      simp [hw]
    have e1 : Trie.insertRev (Trie.TrieNode.node none []) (p :: rs') v =
        Trie.TrieNode.node none
          [(p, Trie.insertRev (Trie.TrieNode.node none []) rs' v)] := rfl
    have e2 : ∀ (m1 : Trie.TrieNode T),
        Trie.insertRev (Trie.TrieNode.node none [(p, m1)])
            (p :: (rs' ++ [Trie.DOT_WILDCARD])) v =
          Trie.TrieNode.node none
            [(p, Trie.insertRev m1 (rs' ++ [Trie.DOT_WILDCARD]) v)] := by
      intro m1
      have hget :
          Trie.childrenGet [(p, m1)] p = some m1 := by
        simp [Trie.childrenGet, List.find?]
      simp only [Trie.insertRev, Trie.TrieNode.getChildren, Trie.TrieNode.getData]
      rw [hget]
      simp [Trie.childrenReplace]
    constructor
    · rw [List.cons_append, e1, e2]
      exact step _ _ _ ih.1
    · rw [List.cons_append, List.cons_append, e1, e2]
      exact step _ _ _ ih.2

/-- C7 (counterexample): the domain `.com` is accepted by `insert` (its
leading label may be empty), but `insert("+..com", v)` is rejected by
`valid_and_split_domain` (the `+.` prefix turns the empty label into an
empty interior label), so nothing is inserted and `search(".com")` stays
`none`: the claim fails for `d = ".com"`. -/
theorem c7_plus_wildcard_fails_on_leading_dot :
    Trie.exceptIsOk ((Trie.DomainTrie.empty (T := Nat)).insert (".com") 7) = true ∧
    Trie.exceptIsOk ((Trie.DomainTrie.empty (T := Nat)).insert ("+..com") 7) = false ∧
    (Trie.DomainTrie.empty (T := Nat)).search (".com") = none := by
  refine ⟨by decide, by decide, by decide⟩

/-- C7 (amended): for every domain `d` all of whose labels are non-empty --
equivalently, such that `"+." + d` is itself accepted by `insert` -- and
every single non-empty label `x`, inserting `+.d` into the empty trie
succeeds and both `search(d)` and `search("x." + d)` return the inserted
value; the hypotheses tie `d`, `"+." + d` and `"x." + d` to their label
lists as computed by `valid_and_split_domain`. -/
theorem c7_plus_wildcard (d x : String) (v : Nat) (ds : List String)
    (h1 : Trie.validAndSplitDomain d = .ok ds)
    (h2 : Trie.validAndSplitDomain ("+." ++ d) = .ok (Trie.COMPLEX_WILDCARD :: ds))
    (h3 : Trie.validAndSplitDomain (x ++ "." ++ d) = .ok (x :: ds))
    (hne : ds ≠ [])
    (hlab : ∀ s ∈ ds, s.data.isEmpty = false)
    (hx : x.data.isEmpty = false) :
    ∃ t', Trie.DomainTrie.empty.insert ("+." ++ d) v = .ok t' ∧
      t'.search d = some v ∧ t'.search (x ++ "." ++ d) = some v := by
  refine ⟨Trie.insertInner (Trie.insertInner Trie.DomainTrie.empty ds v)
    (Trie.DOT_WILDCARD :: ds) v, ?_, ?_, ?_⟩
  · rw [Trie.DomainTrie.insert, h2]
    cases ds with
    | nil => exact absurd rfl hne
    | cons d0 ds' => simp
  · rw [Trie.DomainTrie.search, h1]
    cases ds with
    | nil => exact absurd rfl hne
    | cons d0 ds' =>
      have hd0 : d0.data.isEmpty = false := hlab d0 (by simp)
      simp only [hd0, Bool.false_eq_true, not_false_iff, if_true]
      have heq : (Trie.insertInner (Trie.insertInner Trie.DomainTrie.empty (d0 :: ds') v)
          (Trie.DOT_WILDCARD :: d0 :: ds') v).root =
          Trie.insertRev (Trie.insertRev (Trie.TrieNode.node none [])
            (d0 :: ds').reverse v) ((d0 :: ds').reverse ++ [Trie.DOT_WILDCARD]) v := by
        simp [Trie.insertInner, Trie.DomainTrie.empty, List.reverse_cons]
      rw [heq]
      exact (searchInner_plus (d0 :: ds').reverse v x).1
  · rw [Trie.DomainTrie.search, h3]
    simp only [hx, Bool.false_eq_true, not_false_iff, if_true]
    cases ds with
    | nil => exact absurd rfl hne
    | cons d0 ds' =>
      have heq : (Trie.insertInner (Trie.insertInner Trie.DomainTrie.empty (d0 :: ds') v)
          (Trie.DOT_WILDCARD :: d0 :: ds') v).root =
          Trie.insertRev (Trie.insertRev (Trie.TrieNode.node none [])
            (d0 :: ds').reverse v) ((d0 :: ds').reverse ++ [Trie.DOT_WILDCARD]) v := by
        simp [Trie.insertInner, Trie.DomainTrie.empty, List.reverse_cons]
      have hrev : (x :: d0 :: ds').reverse = (d0 :: ds').reverse ++ [x] := by
        simp [List.reverse_cons]
      rw [hrev, heq]
      exact (searchInner_plus (d0 :: ds').reverse v x).2

/-- C7 witness: inserting `+.example.com` makes both `example.com` and
`x.example.com` resolve to the inserted value. -/
theorem c7_plus_wildcard_witness :
    ∃ t', Trie.DomainTrie.empty.insert ("+." ++ "example.com") (7 : Nat) = .ok t' ∧
      t'.search ("example.com") = some 7 ∧
      t'.search ("x" ++ "." ++ "example.com") = some 7 :=
  c7_plus_wildcard ("example.com") ("x") 7 (["example", "com"]) rfl rfl rfl
    (by decide) (by decide) (by decide)
